import Mathlib

/-!
Verification of the finance-tracker core (src/main.py) against its
specification.  Text is modelled as lists of characters; Python string
lowering is `Char.toLower` mapped over the list, and the Python substring
test `needle in haystack` is an explicit scan.  Amounts are rationals,
dates are integers ordered as calendar dates.  Fallible operations return
`Except` or `Option`; `Option.none` models an uncaught Python exception.
-/

/-- Text, modelled as a list of characters (Python `str`). -/
abbrev Str := List Char

/-- Python `s.lower()`. -/
def lowerStr (s : Str) : Str := s.map Char.toLower

/-- Whether the first string is a prefix of the second (helper for the
Python substring test). -/
def isPrefixOfStr : Str → Str → Bool
  | [], _ => true
  | _ :: _, [] => false
  | a :: s, b :: t => a == b && isPrefixOfStr s t

/-- Python `needle in hay` on strings: `needle` occurs as a contiguous
substring of `hay` (the empty string occurs in every string). -/
def containsStr (needle : Str) : Str → Bool
  | [] => isPrefixOfStr needle []
  | c :: t => isPrefixOfStr needle (c :: t) || containsStr needle t

/-- The category store: an insertion-ordered mapping from category name to
its keyword list, as loaded from categories.json (Python dicts preserve
insertion order). -/
abbrev CategoryStore := List (Str × List Str)

/-- Inner loop of `categorize_expense` (src/main.py line 53-55): scan the
keywords of one category, testing `keyword.lower() in description`. -/
def keywordsMatch (d : Str) : List Str → Bool
  | [] => false
  | kw :: rest => containsStr (lowerStr kw) d || keywordsMatch d rest

/-- Outer loop of `categorize_expense` (src/main.py line 52-56): iterate
categories in store order, return the first category one of whose keywords
matches, else the literal "Other". -/
def categorizeGo (d : Str) : CategoryStore → Str
  | [] => "Other".toList
  | (cat, kws) :: rest => if keywordsMatch d kws then cat else categorizeGo d rest

/-- `categorize_expense` (src/main.py lines 50-56): lower the description,
then scan categories and keywords in order.  The Python `str(description)`
coercion is outside this string-typed model: the argument is the already
coerced text. -/
def categorize_expense (description : Str) (categories : CategoryStore) : Str :=
  categorizeGo (lowerStr description) categories

/-- The default category store written to categories.json on first run
(src/main.py lines 14-20). -/
def defaultCategories : CategoryStore :=
  [("Food".toList, ["grocery".toList, "restaurant".toList, "lunch".toList]),
   ("Transport".toList, ["uber".toList, "taxi".toList, "gas".toList]),
   ("Entertainment".toList, ["movie".toList, "game".toList, "concert".toList]),
   ("Bills".toList, ["electric".toList, "water".toList, "internet".toList]),
   ("Other".toList, [])]

/-- Helper: `categorizeGo` returns the first category with a matching
keyword, skipping every earlier category with no matching keyword. -/
theorem categorizeGo_append (d : Str) (pre : CategoryStore) (c : Str)
    (kws : List Str) (post : CategoryStore)
    (hpre : ∀ p ∈ pre, keywordsMatch d p.2 = false)
    (hm : keywordsMatch d kws = true) :
    categorizeGo d (pre ++ (c, kws) :: post) = c := by
  induction pre with
  | nil => simp [categorizeGo, hm]
  | cons p rest ih =>
    have hp : keywordsMatch d p.2 = false := hpre p (List.mem_cons_self p rest)
    have hrest : ∀ q ∈ rest, keywordsMatch d q.2 = false := by
      intro q hq
      exact hpre q (List.mem_cons_of_mem p hq)
    calc categorizeGo d ((p :: rest) ++ (c, kws) :: post)
        = categorizeGo d (rest ++ (c, kws) :: post) := by
          obtain ⟨pc, pkws⟩ := p
          simp only [List.cons_append, categorizeGo]
          simp only [keywordsMatch] at hp ⊢
          rw [hp]
          simp
      _ = c := ih hrest

/-- C1: if the store splits as pre ++ [(C, kws)] ++ post where no category
in pre has any keyword matching the (lowered) description and some keyword
of C matches, then classification returns C — first-match-wins by category
insertion order, regardless of matches in later categories.  Keyword order
inside a category cannot affect the returned category name. -/
theorem classify_first_match (d : Str) (pre : CategoryStore) (c : Str)
    (kws : List Str) (post : CategoryStore)
    (hpre : ∀ p ∈ pre, keywordsMatch (lowerStr d) p.2 = false)
    (hm : keywordsMatch (lowerStr d) kws = true) :
    categorize_expense d (pre ++ (c, kws) :: post) = c :=
  categorizeGo_append (lowerStr d) pre c kws post hpre hm

/-- C1 witness: the description "Uber to a movie" matches the Transport
keyword "uber" (category 2) and the Entertainment keyword "movie"
(category 3); Food (category 1) has no match, so Transport wins. -/
theorem classify_first_match_witness :
    categorize_expense "Uber to a movie".toList defaultCategories = "Transport".toList :=
  classify_first_match "Uber to a movie".toList
    [("Food".toList, ["grocery".toList, "restaurant".toList, "lunch".toList])]
    "Transport".toList
    ["uber".toList, "taxi".toList, "gas".toList]
    [("Entertainment".toList, ["movie".toList, "game".toList, "concert".toList]),
     ("Bills".toList, ["electric".toList, "water".toList, "internet".toList]),
     ("Other".toList, [])]
    (by decide) (by decide)

/-- Helper: if no keyword in the list matches, the keyword scan is false. -/
theorem keywordsMatch_eq_false (d : Str) (kws : List Str)
    (h : ∀ kw ∈ kws, containsStr (lowerStr kw) d = false) :
    keywordsMatch d kws = false := by
  induction kws with
  | nil => rfl
  | cons kw rest ih =>
    simp only [keywordsMatch, Bool.or_eq_false_iff]
    exact ⟨h kw (List.mem_cons_self kw rest),
      ih fun k hk => h k (List.mem_cons_of_mem kw hk)⟩

/-- Helper: if no category in the store has a matching keyword, the scan
falls through to the literal "Other". -/
theorem categorizeGo_eq_other (d : Str) (store : CategoryStore)
    (h : ∀ p ∈ store, keywordsMatch d p.2 = false) :
    categorizeGo d store = "Other".toList := by
  induction store with
  | nil => rfl
  | cons p rest ih =>
    obtain ⟨c, kws⟩ := p
    have hp := h (c, kws) (List.mem_cons_self _ rest)
    simp only at hp
    simp [categorizeGo, hp, ih fun q hq => h q (List.mem_cons_of_mem _ hq)]

/-- C2: if no keyword of any category occurs case-insensitively as a
substring of the description (in particular when the store is empty),
classification returns the literal "Other", whether or not "Other" is a
key of the store. -/
theorem classify_no_match (d : Str) (store : CategoryStore)
    (h : ∀ p ∈ store, ∀ kw ∈ p.2, containsStr (lowerStr kw) (lowerStr d) = false) :
    categorize_expense d store = "Other".toList := by
  unfold categorize_expense
  exact categorizeGo_eq_other _ _ fun p hp =>
    keywordsMatch_eq_false _ _ fun kw hkw => h p hp kw hkw

/-- C2 witness: "zzz qqq" matches no keyword of the default store, and any
description leaves the empty store at "Other". -/
theorem classify_no_match_witness :
    categorize_expense "zzz qqq".toList defaultCategories = "Other".toList ∧
    categorize_expense "uber grocery".toList [] = "Other".toList :=
  ⟨classify_no_match "zzz qqq".toList defaultCategories (by decide),
   classify_no_match "uber grocery".toList [] (by decide)⟩

/-- C3: classification is invariant under case changes of the description:
two descriptions with the same lowering classify identically against every
store, because the code lowers the description before any comparison. -/
theorem classify_case_insensitive (d₁ d₂ : Str) (store : CategoryStore)
    (h : lowerStr d₁ = lowerStr d₂) :
    categorize_expense d₁ store = categorize_expense d₂ store := by
  simp [categorize_expense, h]

/-- C3 witness: "GROCERY run" and "grocery run" classify identically
against the default store. -/
theorem classify_case_insensitive_witness :
    categorize_expense "GROCERY run".toList defaultCategories =
      categorize_expense "grocery run".toList defaultCategories :=
  classify_case_insensitive "GROCERY run".toList "grocery run".toList
    defaultCategories (by decide)

/-- C10: the classifier only ever returns a key of the store or the
literal "Other"; never any other string.  The orchestrator (src/main.py
lines 90-92) relies on this when locating the suggestion among the store
keys. -/
theorem classify_result_in_store (d : Str) (store : CategoryStore) :
    categorize_expense d store = "Other".toList ∨
      categorize_expense d store ∈ store.map Prod.fst := by
  unfold categorize_expense
  induction store with
  | nil => left; rfl
  | cons p rest ih =>
    obtain ⟨c, kws⟩ := p
    by_cases hm : keywordsMatch (lowerStr d) kws = true
    · right
      simp [categorizeGo, hm]
    · rcases ih with h | h
      · left
        simpa [categorizeGo, hm] using h
      · right
        simp only [categorizeGo, hm, if_false, List.map_cons]
        exact List.mem_cons_of_mem _ h

/-- An expense record: one row of the ledger table (src/main.py lines
99-100).  Dates are integers ordered as calendar dates; amounts are
rationals standing for the decimal amounts. -/
structure ExpenseRecord where
  date : Int
  description : Str
  category : Str
  amount : ℚ
deriving DecidableEq, Repr

/-- The add-expense handler (src/main.py lines 93-104): reject an empty
description, then reject a non-positive amount, otherwise append the new
row to the end of the ledger.  Errors carry the message shown to the
user. -/
def addExpense (ledger : List ExpenseRecord) (date : Int) (description : Str)
    (category : Str) (amount : ℚ) : Except Str (List ExpenseRecord) :=
  if description.isEmpty then .error "Please enter a description".toList
  else if amount ≤ 0 then .error "Amount must be positive".toList
  else .ok (ledger ++ [⟨date, description, category, amount⟩])

/-- C6: add rejects with a validation error exactly when the description
is empty or the amount is non-positive, and otherwise appends the record
to the end of the ledger. -/
theorem addExpense_spec (ledger : List ExpenseRecord) (date : Int)
    (description category : Str) (amount : ℚ) :
    ((description = [] ∨ amount ≤ 0) →
      ∃ msg, addExpense ledger date description category amount = .error msg) ∧
    (description ≠ [] → 0 < amount →
      addExpense ledger date description category amount =
        .ok (ledger ++ [⟨date, description, category, amount⟩])) := by
  constructor
  · rintro (hd | ha)
    · exact ⟨"Please enter a description".toList, by simp [addExpense, hd]⟩
    · by_cases hd : description = []
      · exact ⟨"Please enter a description".toList, by simp [addExpense, hd]⟩
      · refine ⟨"Amount must be positive".toList, ?_⟩
        have : ¬ description.isEmpty := by simpa [List.isEmpty_iff] using hd
        simp [addExpense, this, ha]
  · intro hd hpos
    have h₁ : ¬ description.isEmpty := by simpa [List.isEmpty_iff] using hd
    have h₂ : ¬ amount ≤ 0 := not_le.mpr hpos
    simp [addExpense, h₁, h₂]

/-- C6 witness: amounts 0 and -5 are rejected, amount 0.01 with a
non-empty description is appended. -/
theorem addExpense_spec_witness :
    (∃ msg, addExpense [] 0 "coffee".toList "Food".toList 0 = .error msg) ∧
    (∃ msg, addExpense [] 0 "coffee".toList "Food".toList (-5) = .error msg) ∧
    addExpense [] 0 "coffee".toList "Food".toList (1/100) =
      .ok [⟨0, "coffee".toList, "Food".toList, 1/100⟩] :=
  ⟨(addExpense_spec [] 0 "coffee".toList "Food".toList 0).1 (Or.inr le_rfl),
   (addExpense_spec [] 0 "coffee".toList "Food".toList (-5)).1 (Or.inr (by norm_num)),
   (addExpense_spec [] 0 "coffee".toList "Food".toList (1/100)).2 (by decide) (by norm_num)⟩

/-- The expenses-tab filter (src/main.py lines 135-142): first keep the
rows whose date lies between the chosen start and end dates (inclusive),
then, if the selected category is not the sentinel "All", keep only rows
of that category. -/
def filterLedger (ledger : List ExpenseRecord) (startDate endDate : Int)
    (selectedCategory : Str) : List ExpenseRecord :=
  let byDate := ledger.filter fun r => decide (startDate ≤ r.date ∧ r.date ≤ endDate)
  if selectedCategory ≠ "All".toList then
    byDate.filter fun r => decide (r.category = selectedCategory)
  else byDate

/-- C7: the filter returns exactly the records whose date lies in
[start, end] inclusive and, when the selected category is not the sentinel
"All", whose category equals the selected one; with "All" no category
predicate applies.  The result is a single order-preserving filter of the
ledger, so the records appear in original insertion order. -/
theorem filterLedger_spec (ledger : List ExpenseRecord)
    (startDate endDate : Int) (selectedCategory : Str) :
    filterLedger ledger startDate endDate selectedCategory =
      ledger.filter fun r => decide (startDate ≤ r.date ∧ r.date ≤ endDate ∧
        (selectedCategory ≠ "All".toList → r.category = selectedCategory)) := by
  unfold filterLedger
  by_cases hAll : selectedCategory = "All".toList
  · simp only [hAll, ne_eq, not_true_eq_false, if_false]
    exact List.filter_congr fun r _ => by simp
  · simp only [ne_eq, hAll, not_false_eq_true, if_true, List.filter_filter]
    exact List.filter_congr fun r _ => by
      by_cases h₁ : startDate ≤ r.date ∧ r.date ≤ endDate <;>
        by_cases h₂ : r.category = selectedCategory <;>
          simp [h₁, h₂, hAll]

/-- Sum of the amounts of the records in one category group
(src/main.py line 113: groupby('Category')['Amount'].sum()). -/
def sumAmounts (rs : List ExpenseRecord) (c : Str) : ℚ :=
  ((rs.filter fun r => decide (r.category = c)).map fun r => r.amount).foldl (· + ·) 0

/-- The dashboard grouping (src/main.py line 113): one entry per category
occurring among the given records, mapping it to the sum of the amounts of
the records bearing it.  The order in which pandas lists the group keys is
not part of the claim (the result is read as a mapping), so the keys are
simply deduplicated here. -/
def totalsByCategory (rs : List ExpenseRecord) : List (Str × ℚ) :=
  ((rs.map fun r => r.category).dedup).map fun c => (c, sumAmounts rs c)

/-- Helper: folding addition from the left starting at a equals a plus the
list sum. -/
theorem foldl_add_eq_sum (l : List ℚ) (a : ℚ) : l.foldl (· + ·) a = a + l.sum := by
  induction l generalizing a with
  | nil => simp
  | cons x t ih => simp [List.foldl_cons, ih, add_assoc]

/-- C8: a pair (c, v) appears in the grouped totals exactly when category
c occurs among the records and v is the sum of the amounts of exactly the
records bearing c; no other category appears in the result. -/
theorem totalsByCategory_spec (rs : List ExpenseRecord) (c : Str) (v : ℚ) :
    (c, v) ∈ totalsByCategory rs ↔
      ((∃ r ∈ rs, r.category = c) ∧
        v = ((rs.filter fun r => decide (r.category = c)).map fun r => r.amount).sum) := by
  unfold totalsByCategory
  rw [List.mem_map]
  constructor
  · rintro ⟨c', hc', heq⟩
    rw [Prod.mk.injEq] at heq
    obtain ⟨rfl, rfl⟩ := heq
    rw [List.mem_dedup, List.mem_map] at hc'
    exact ⟨hc', by simp [sumAmounts, foldl_add_eq_sum]⟩
  · rintro ⟨hocc, rfl⟩
    refine ⟨c, ?_, ?_⟩
    · rw [List.mem_dedup, List.mem_map]
      exact hocc
    · simp [sumAmounts, foldl_add_eq_sum]

/-- The example records of the specification: (Food, 10.00),
(Food, 5.50), (Transport, 3.25). -/
def exampleRecords : List ExpenseRecord :=
  [⟨0, "a".toList, "Food".toList, 10⟩,
   ⟨1, "b".toList, "Food".toList, 11/2⟩,
   ⟨2, "c".toList, "Transport".toList, 13/4⟩]

/-- C8 witness: on the example records the grouped totals contain
Food mapped to 15.50 and Transport mapped to 3.25. -/
theorem totalsByCategory_spec_witness :
    ("Food".toList, (31/2 : ℚ)) ∈ totalsByCategory exampleRecords ∧
    ("Transport".toList, (13/4 : ℚ)) ∈ totalsByCategory exampleRecords :=
  ⟨(totalsByCategory_spec exampleRecords "Food".toList (31/2)).mpr
    ⟨⟨⟨0, "a".toList, "Food".toList, 10⟩, by simp [exampleRecords], rfl⟩, by
      simp +decide [exampleRecords]
      norm_num⟩,
   (totalsByCategory_spec exampleRecords "Transport".toList (13/4)).mpr
    ⟨⟨⟨2, "c".toList, "Transport".toList, 13/4⟩, by simp [exampleRecords], rfl⟩, by
      simp +decide [exampleRecords]⟩⟩

/-- A cell of the persisted expense table: a missing value, a number, or
text.  Added columns are filled with None (0.0 for Amount), matching the
fix-up loop of load_data. -/
inductive Cell where
  | null : Cell
  | num : ℚ → Cell
  | text : Str → Cell
deriving DecidableEq, Repr

/-- A data frame, as an ordered list of named columns. -/
abbrev Frame := List (Str × List Cell)

/-- The four required ledger columns (src/main.py line 25). -/
def requiredColumns : List Str :=
  ["Date".toList, "Description".toList, "Category".toList, "Amount".toList]

/-- Number of rows of a frame (length of its first column). -/
def frameRowCount : Frame → Nat
  | [] => 0
  | (_, vs) :: _ => vs.length

/-- The column fix-up loop of load_data (src/main.py lines 26-28): each
required column missing from the frame is appended, filled with None
(0.0 for Amount) broadcast over the rows.  The pd.to_datetime conversion
of the Date column (line 30) is not modelled: dates are already abstract
cell values here. -/
def addMissingColumns (df : Frame) : Frame :=
  requiredColumns.foldl
    (fun acc col =>
      if acc.any fun p => p.1 == col then acc
      else acc ++ [(col, List.replicate (frameRowCount df)
        (if col == "Amount".toList then Cell.num 0 else Cell.null))])
    df

/-- load_data (src/main.py lines 22-34): on a successful read, fix up the
required columns; on any failure, fall back to the empty four-column
frame.  The try/except is modelled by the Except argument: an error value
stands for any exception raised while reading or parsing the file. -/
def load_data (raw : Except Str Frame) : Frame :=
  match raw with
  | .ok df => addMissingColumns df
  | .error _ =>
    [("Date".toList, []), ("Description".toList, []),
     ("Category".toList, []), ("Amount".toList, [])]

/-- load_categories (src/main.py lines 36-41): on a successful read,
return the parsed mapping; on any failure, fall back to the minimal map
with only the key "Other". -/
def load_categories (raw : Except Str CategoryStore) : CategoryStore :=
  match raw with
  | .ok cats => cats
  | .error _ => [("Other".toList, [])]

/-- C9: whenever loading fails, the load operations return the safe
defaults instead of propagating the error: load_data returns the empty
ledger with the four columns Date, Description, Category, Amount, and
load_categories returns the minimal category map with only "Other". -/
theorem load_failure_defaults (e₁ e₂ : Str) :
    load_data (.error e₁) =
      [("Date".toList, []), ("Description".toList, []),
       ("Category".toList, []), ("Amount".toList, [])] ∧
    (load_data (.error e₁)).map Prod.fst = requiredColumns ∧
    load_categories (.error e₂) = [("Other".toList, [])] :=
  ⟨rfl, rfl, rfl⟩

/-- Helper: a non-empty keyword never occurs in the empty description. -/
theorem containsStr_lower_nil (kw : Str) (h : kw ≠ []) :
    containsStr (lowerStr kw) [] = false := by
  obtain ⟨c, t, rfl⟩ := List.exists_cons_of_ne_nil h
  rfl

/-- C4 counterexample: the claim says classification of the empty
description returns "Other" for every category store, but a store whose
first category owns the empty keyword classifies the empty description
into that category, because the empty string is a substring of every
string in Python. -/
theorem classify_empty_counterexample :
    categorize_expense [] [("Food".toList, [([] : Str)])] = "Food".toList ∧
    "Food".toList ≠ "Other".toList := by
  decide

/-- C4 (amended): classification of the empty description returns "Other"
for every store none of whose keyword lists contains the empty keyword
(with an empty keyword present, the first category owning one is returned
instead, as the counterexample shows); classification against the empty
store returns "Other" for every description.  The Python str coercion of
non-text input happens before the model, whose classifier is a total
function of the coerced text. -/
theorem classify_empty_amended (store : CategoryStore) :
    ((∀ p ∈ store, ∀ kw ∈ p.2, kw ≠ ([] : Str)) →
      categorize_expense [] store = "Other".toList) ∧
    (∀ d : Str, categorize_expense d [] = "Other".toList) := by
  constructor
  · intro h
    unfold categorize_expense
    exact categorizeGo_eq_other _ _ fun p hp =>
      keywordsMatch_eq_false _ _ fun kw hkw =>
        by simpa [lowerStr] using containsStr_lower_nil kw (h p hp kw hkw)
  · intro d
    rfl

/-- C4 witness: the empty description is "Other" on the default store (no
empty keywords there), and "hello" is "Other" on the empty store. -/
theorem classify_empty_amended_witness :
    categorize_expense [] defaultCategories = "Other".toList ∧
    categorize_expense "hello".toList [] = "Other".toList :=
  ⟨(classify_empty_amended defaultCategories).1 (by decide),
   (classify_empty_amended []).2 "hello".toList⟩

/-- The dictionary access and append of the add-keyword handler
(src/main.py line 171): walk the store to the selected category and append
the keyword to its list.  `none` models the uncaught Python KeyError
raised when the category is not a key of the store. -/
def appendKeyword (cat kw : Str) : CategoryStore → Option CategoryStore
  | [] => none
  | (c, kws) :: rest =>
    if c = cat then some ((c, kws ++ [kw]) :: rest)
    else (appendKeyword cat kw rest).map fun r => (c, kws) :: r

/-- The add-keyword click handler (src/main.py lines 169-174): with a
non-empty keyword, append it to the selected category via the unchecked
dictionary access; with an empty keyword the handler does nothing and the
store is unchanged. -/
def addKeywordClick (store : CategoryStore) (cat kw : Str) : Option CategoryStore :=
  if kw.isEmpty then some store else appendKeyword cat kw store

/-- Helper: the dictionary access faults when the category is absent. -/
theorem appendKeyword_absent (cat kw : Str) (store : CategoryStore)
    (h : ∀ p ∈ store, p.1 ≠ cat) : appendKeyword cat kw store = none := by
  induction store with
  | nil => rfl
  | cons p rest ih =>
    obtain ⟨c, kws⟩ := p
    have hc : c ≠ cat := h (c, kws) (List.mem_cons_self _ rest)
    simp [appendKeyword, hc, ih fun q hq => h q (List.mem_cons_of_mem _ hq)]

/-- Helper: the dictionary access appends to the first entry bearing the
selected category name, leaving all other entries unchanged. -/
theorem appendKeyword_found (cat kw : Str) (pre : CategoryStore)
    (kws : List Str) (post : CategoryStore)
    (hpre : ∀ p ∈ pre, p.1 ≠ cat) :
    appendKeyword cat kw (pre ++ (cat, kws) :: post) =
      some (pre ++ (cat, kws ++ [kw]) :: post) := by
  induction pre with
  | nil => simp [appendKeyword]
  | cons p rest ih =>
    obtain ⟨c, ckws⟩ := p
    have hc : c ≠ cat := hpre (c, ckws) (List.mem_cons_self _ rest)
    simp [appendKeyword, hc, ih fun q hq => hpre q (List.mem_cons_of_mem _ hq)]

/-- C5 counterexample: the claim says add-keyword reports a structured
category-not-found failure, never an uncaught fault, when the category is
absent, and that it appends for every keyword.  On the code, the absent
category makes the unchecked dictionary access raise KeyError (modelled by
none), and the empty keyword is silently dropped rather than appended. -/
theorem addKeyword_counterexample :
    addKeywordClick [("Other".toList, [])] "Food".toList "gas".toList = none ∧
    addKeywordClick [("Food".toList, [])] "Food".toList [] =
      some [("Food".toList, [])] := by
  decide

/-- C5 (amended): the empty keyword leaves the store unchanged; a
non-empty keyword is appended, without deduplication or case
normalization, to the end of the keyword list of the selected category
when that category is a key of the store; and when the category is absent
the unchecked dictionary access faults with an uncaught KeyError (none)
instead of reporting a structured failure. -/
theorem addKeyword_amended (store : CategoryStore) (cat kw : Str) :
    (addKeywordClick store cat [] = some store) ∧
    (kw ≠ [] → ∀ pre kws post, store = pre ++ (cat, kws) :: post →
      (∀ p ∈ pre, p.1 ≠ cat) →
      addKeywordClick store cat kw = some (pre ++ (cat, kws ++ [kw]) :: post)) ∧
    (kw ≠ [] → (∀ p ∈ store, p.1 ≠ cat) → addKeywordClick store cat kw = none) := by
  refine ⟨rfl, ?_, ?_⟩
  · intro hkw pre kws post hstore hpre
    subst hstore
    have hne : ¬ kw.isEmpty := by simpa [List.isEmpty_iff] using hkw
    simp [addKeywordClick, hne, appendKeyword_found cat kw pre kws post hpre]
  · intro hkw habs
    have hne : ¬ kw.isEmpty := by simpa [List.isEmpty_iff] using hkw
    simp [addKeywordClick, hne, appendKeyword_absent cat kw store habs]

/-- C5 witness: appending "toll" to Transport in the default store
extends exactly the Transport keyword list, and appending to a category
absent from the store faults (none). -/
theorem addKeyword_amended_witness :
    addKeywordClick defaultCategories "Transport".toList "toll".toList =
      some [("Food".toList, ["grocery".toList, "restaurant".toList, "lunch".toList]),
            ("Transport".toList,
              ["uber".toList, "taxi".toList, "gas".toList, "toll".toList]),
            ("Entertainment".toList, ["movie".toList, "game".toList, "concert".toList]),
            ("Bills".toList, ["electric".toList, "water".toList, "internet".toList]),
            ("Other".toList, [])] ∧
    addKeywordClick [("Other".toList, [])] "Food".toList "parking".toList = none :=
  ⟨(addKeyword_amended defaultCategories "Transport".toList "toll".toList).2.1
      (by decide)
      [("Food".toList, ["grocery".toList, "restaurant".toList, "lunch".toList])]
      ["uber".toList, "taxi".toList, "gas".toList]
      [("Entertainment".toList, ["movie".toList, "game".toList, "concert".toList]),
       ("Bills".toList, ["electric".toList, "water".toList, "internet".toList]),
       ("Other".toList, [])]
      rfl (by decide),
   (addKeyword_amended [("Other".toList, [])] "Food".toList "parking".toList).2.2
      (by decide) (by decide)⟩
